import Mathlib

/-!
# SemTeX: the summation replacer and the orchestration in `main`

A shallow embedding of `src/SummationReplacer.cpp`, of the data declared in
`src/FileParser.hpp` and of `queueCallback` / `main` in `src/main.cpp`.

Conventions of the embedding.

* A `const char*` into the source buffer is the byte offset (`Nat`) of the
  pointed-to byte.
* A C++ member function that mutates the `Parser` and may throw is a function
  `Parser → Except Exn α × Parser`: the second component is the parser state
  that the caller observes afterwards, also when an exception escapes.
* `std::unordered_set<std::string>` is the list of its elements in iteration
  order, `std::unordered_map` the list of its key/value pairs.
-/

namespace SemTeX

/-! ## Exceptions -/

/-- The exceptions that the embedded code distinguishes: the project's
`Exceptions::InvalidInputException` (message and throwing function), any other
`Exceptions::Exception`, a `std::exception`, and anything else. -/
inductive Exn where
  | InvalidInputException (message : String) (function : String)
  | Exception (message : String)
  | stdException (what : String)
  | unknown
  deriving DecidableEq, Repr

/-! ## `FileParser.hpp` -/

/-- The struct `Replacement` (FileParser.hpp, lines 7-24): where a replacement
starts, one byte past where it ends, and the text to put there. -/
structure Replacement where
  start : Nat
  «end» : Nat
  replaceWith : String
  deriving DecidableEq, Repr

/-- The struct `MacroOptions` (FileParser.hpp, lines 27-33). -/
structure MacroOptions where
  flags : List String
  opts : List (String × String)
  deriving DecidableEq, Repr

/-- The data members of struct `Parser` (FileParser.hpp, lines 35-104); the
reference to the shared context is not needed by the replacer. -/
structure Parser where
  replacements : List Replacement
  «end» : Nat
  curr : Nat
  filename : String
  currLine : Int
  unixNewlines : Int
  windowsNewlines : Int
  macNewlines : Int
  deriving DecidableEq, Repr

/-- The member functions of `Parser` that `SummationReplacer::replace` calls.
FileParser.hpp declares them (lines 83, 85 and 91) and their bodies are in no
file of the sources at hand, so they are taken as parameters; every one may
change any member of the parser and may throw. -/
structure ParserOps where
  parseMacroOptions : Parser → Except Exn MacroOptions × Parser
  parseBracketArgs : Parser → Except Exn (List String) × Parser
  errorOnLine : String → Parser → Except Exn Unit × Parser

/-! ## `SummationReplacer.cpp` -/

/-- The static set `acceptedFlags` (SummationReplacer.cpp, line 8). -/
def acceptedFlags : List String := ["inf", "lim"]

/-- The handler of lines 25-27: an `InvalidInputException` is thrown again with
the macro's name appended and `__FUNCTION__` as its origin; any other exception
passes through. -/
def rethrow : Exn → Exn
  | .InvalidInputException message _ =>
      .InvalidInputException (message ++ " in \\summation") "replace"
  | e => e

/-- The loop of lines 32-35 over the flags of the invocation. -/
def checkFlags (ops : ParserOps) : List String → Parser → Except Exn Unit × Parser
  | [], pi => (.ok (), pi)
  | flag :: rest, pi =>
    if flag ∈ acceptedFlags then checkFlags ops rest pi
    else
      match ops.errorOnLine ("Unknown argument \"" ++ flag ++ "\" for \\summation") pi with
      | (.error e, pi1) => (.error e, pi1)
      | (.ok (), pi1) => checkFlags ops rest pi1

/-- Lines 37 and 42-66: the replacement text computed from the parsed options
and positional arguments. The pointers `wrt`, `lower` and `upper` are options,
`nullptr` being `none`. -/
def replacementText (options : MacroOptions) (argList : List String) : String :=
  let numArgs := argList.length
  let inf : Bool := decide ("inf" ∈ options.flags)
  let lim : Bool := decide ("lim" ∈ options.flags)
  let wrt : Option String :=
    if h : 1 ≤ numArgs then some (argList.get ⟨0, h⟩) else none
  let lower : Option String :=
    if h : 2 ≤ numArgs then
      (if argList.get ⟨1, h⟩ = "" then none else some (argList.get ⟨1, h⟩))
    else none
  let upper : Option String :=
    if h : 3 ≤ numArgs then
      (if argList.get ⟨2, h⟩ = "" then none else some (argList.get ⟨2, h⟩))
    else none
  let replacement := "\\sum"
  let replacement :=
    if (upper.isSome || lower.isSome || inf) && lim then replacement ++ "\\limits"
    else replacement
  let replacement :=
    match lower with
    | some l =>
        replacement ++ ("_\x7b" ++ (match wrt with | some w => w ++ "=" | none => "") ++ l ++ "\x7d")
    | none =>
        if inf then
          replacement ++ ("_\x7b" ++ (match wrt with | some w => w ++ "=" | none => "") ++ "-\\infty\x7d")
        else
          match wrt with
          | some w => replacement ++ ("_\x7b" ++ w ++ "\x7d")
          | none => replacement
  let replacement :=
    match upper with
    | some u => replacement ++ ("^\x7b" ++ u ++ "\x7d")
    | none => if inf then replacement ++ "^\x7b\\infty\x7d" else replacement
  replacement

/-- Lines 29-68 of `SummationReplacer::replace`: the checks on the parsed
options and arguments, and the entry appended to the log. `start` is the cursor
at entry of `replace`. -/
def validateAndAppend (ops : ParserOps) (start : Nat) (options : MacroOptions)
    (argList : List String) (pi2 : Parser) : Except Exn Unit × Parser :=
  match (if options.opts.length ≠ 0 then
           ops.errorOnLine "\\summation does not take options" pi2
         else (.ok (), pi2)) with
  | (.error e, pi3) => (.error e, pi3)
  | (.ok (), pi3) =>
  match checkFlags ops options.flags pi3 with
  | (.error e, pi4) => (.error e, pi4)
  | (.ok (), pi4) =>
  match (if argList.length > 3 then
           ops.errorOnLine "Too many arguments for \\summation" pi4
         else (.ok (), pi4)) with
  | (.error e, pi5) => (.error e, pi5)
  | (.ok (), pi5) =>
    (.ok (), { pi5 with
      replacements :=
        pi5.replacements ++ [⟨start, pi5.curr, replacementText options argList⟩] })

/-- The function `SummationReplacer::replace` (SummationReplacer.cpp, lines
14-69). The result is the exception that escapes, if any, and the parser as the
caller finds it afterwards. -/
def replace (ops : ParserOps) (matchedKey : String) (pi : Parser) :
    Except Exn Unit × Parser :=
  let start := pi.curr
  let pi0 := { pi with curr := pi.curr + matchedKey.utf8ByteSize }
  match ops.parseMacroOptions pi0 with
  | (.error e, pi1) => (.error (rethrow e), pi1)
  | (.ok options, pi1) =>
  match ops.parseBracketArgs pi1 with
  | (.error e, pi2) => (.error (rethrow e), pi2)
  | (.ok argList, pi2) => validateAndAppend ops start options argList pi2

/-! ## The argument parser, modelled from the specification -/

/-- Modelled from the spec: the body of `Parser::errorOnLine` is missing from
the sources. Section 4.1 says that a diagnostic aborts the file and is tagged
with the file name and the current line; the method never returns normally and
leaves the parser as it is. -/
def errorOnLine (msg : String) (pi : Parser) : Except Exn Unit × Parser :=
  (.error (.InvalidInputException
      (pi.filename ++ ":" ++ String.mk (Nat.toDigits 10 pi.currLine.toNat) ++ ": " ++ msg)
      "errorOnLine"), pi)

/-- Modelled from the spec: helper of the argument parser of section 4.2. The
characters before the first `stop`, when `stop` occurs at all. -/
def takeUntil (stop : Char) : List Char → Option (List Char)
  | [] => none
  | c :: rest =>
    if c = stop then some []
    else (takeUntil stop rest).map (fun body => c :: body)

/-- Modelled from the spec: helper of the argument parser of section 4.2. The
tokens of an option list are the pieces between commas. -/
def splitCommas : List Char → List (List Char)
  | [] => [[]]
  | c :: rest =>
    match splitCommas rest with
    | [] => [[c]]
    | tok :: toks => if c = ',' then [] :: tok :: toks else (c :: tok) :: toks

/-- Modelled from the spec: helper of the argument parser of section 4.2.
Mapping semantics of the option map: a repeated key overwrites the value. -/
def insertOpt (key value : String) : List (String × String) → List (String × String)
  | [] => [(key, value)]
  | (k, v) :: rest =>
    if k = key then (k, value) :: rest else (k, v) :: insertOpt key value rest

/-- Modelled from the spec: helper of the argument parser of section 4.2. One
token of the option list: with an `=` it is a key and a value, without one it is
a flag; a repeated flag collapses and an empty token is skipped. -/
def addToken (o : MacroOptions) (tok : List Char) : MacroOptions :=
  if tok = [] then o
  else
    match takeUntil '=' tok with
    | some key =>
        { o with opts := insertOpt (String.mk key) (String.mk (tok.drop (key.length + 1))) o.opts }
    | none =>
        if String.mk tok ∈ o.flags then o else { o with flags := o.flags ++ [String.mk tok] }

/-- Modelled from the spec: the body of `Parser::parseMacroOptions` is missing
from the sources. Section 4.2, item 1: an optional bracket-delimited list of
comma-separated tokens right after the trigger; an unclosed bracket is a
structural error. The cursor moves past what was read. -/
def parseMacroOptions (buf : List Char) (pi : Parser) : Except Exn MacroOptions × Parser :=
  match (buf.take pi.«end»).drop pi.curr with
  | '[' :: rest =>
    match takeUntil ']' rest with
    | some body =>
        (.ok ((splitCommas body).foldl addToken ⟨[], []⟩),
          { pi with curr := pi.curr + (body.length + 2) })
    | none =>
        (.error (.InvalidInputException "Unterminated option list" "parseMacroOptions"), pi)
  | _ => (.ok ⟨[], []⟩, pi)

/-- Modelled from the spec: helper of the argument parser of section 4.2. The
text of one braced group whose opening brace has been read, at nesting depth
`depth`, up to the brace that closes it. -/
def takeBraced : Nat → List Char → Option (List Char)
  | _, [] => none
  | depth, c :: rest =>
    if c = '}' then
      match depth with
      | 0 => some []
      | d + 1 => (takeBraced d rest).map (fun body => c :: body)
    else if c = '{' then (takeBraced (depth + 1) rest).map (fun body => c :: body)
    else (takeBraced depth rest).map (fun body => c :: body)

/-- Modelled from the spec: helper of the argument parser of section 4.2. The
braced groups at the head of `rest`, and the number of bytes they take; `fuel`
bounds the number of groups. -/
def takeGroups : Nat → List Char → Option (List String × Nat)
  | 0, _ => some ([], 0)
  | fuel + 1, rest =>
    match rest with
    | '{' :: inner =>
      match takeBraced 0 inner with
      | some body =>
          (takeGroups fuel (inner.drop (body.length + 1))).map
            (fun r => (String.mk body :: r.1, body.length + 2 + r.2))
      | none => none
    | _ => some ([], 0)

/-- Modelled from the spec: the body of `Parser::parseBracketArgs` is missing
from the sources. Section 4.2, item 2: zero or more brace-delimited arguments,
read until no brace follows immediately; an unclosed or unbalanced brace is a
structural error. The cursor moves past what was read. -/
def parseBracketArgs (buf : List Char) (pi : Parser) : Except Exn (List String) × Parser :=
  let rest := (buf.take pi.«end»).drop pi.curr
  match takeGroups rest.length rest with
  | some (args, n) => (.ok args, { pi with curr := pi.curr + n })
  | none => (.error (.InvalidInputException "Unterminated argument" "parseBracketArgs"), pi)

/-- Modelled from the spec: the three member functions of the parser over the
source buffer `buf`, as modelled above. -/
def bufferOps (buf : List Char) : ParserOps where
  parseMacroOptions := parseMacroOptions buf
  parseBracketArgs := parseBracketArgs buf
  errorOnLine := errorOnLine

/-- A parser at offset `curr` of a buffer of `len` bytes, on line 1 of file
`filename`, with the replacement log `log`. -/
def parserAt (filename : String) (len curr : Nat) (log : List Replacement) : Parser :=
  ⟨log, len, curr, filename, 1, 0, 0, 0⟩

/-! ## `main.cpp` -/

/-- Modelled from the spec: `ProcessorThread.hpp` is missing from the sources.
A worker (section 3) is either processing a file or not (`isBusy`), receives an
explicit stop signal (`beginExit`) and is then joined (`join`). -/
structure ProcessorThread where
  busy : Bool
  exitRequested : Bool
  joined : Bool
  deriving DecidableEq, Repr

/-- Modelled from the spec: the constructor of `ProcessorThread` is missing
from the sources; a new worker (section 3) is idle, not stopped, not joined. -/
def ProcessorThread.new : ProcessorThread := ⟨false, false, false⟩

/-- Modelled from the spec: `FileQueue.hpp` is missing from the sources. The
queue (section 4.5) is a FIFO of pending files with a dequeue gate. -/
structure FileQueue where
  files : List String
  dequeueEnabled : Bool
  deriving DecidableEq, Repr

/-- Modelled from the spec: `Context.hpp` is missing from the sources. The
shared context (section 3) holds the verbosity flag, the sticky error flag, the
registry of generated files and the file queue. -/
structure Context where
  verbose : Bool
  error : Bool
  generatedFiles : List String
  queue : FileQueue
  deriving DecidableEq, Repr

/-- What `main` and `queueCallback` do to the outside world, in order: text on
standard output or standard error, `fflush(stdout)`, a call of `system`, a call
of `boost::filesystem::remove` (taken to return), and a call of
`std::this_thread::sleep_for`. -/
inductive Effect where
  | printf (text : String)
  | fprintf (text : String)
  | fflush
  | system (command : String)
  | remove (path : String)
  | sleep
  deriving DecidableEq, Repr

/-- The file-level variables of main.cpp (lines 13-17) and the effects so
far. -/
structure World where
  threadsStarted : Bool
  auxThreads : List ProcessorThread
  ctxt : Context
  out : List Effect
  deriving DecidableEq, Repr

/-- Appends one effect to the record. -/
def World.emit (w : World) (e : Effect) : World := { w with out := w.out ++ [e] }

/-- What `main` uses and the sources do not contain: `processFile` (declared
in FileParser.hpp, line 112), the value of
`std::thread::hardware_concurrency()`, the result of `boost::regex_replace` for
the pattern of line 97, and what the worker threads do to the shared state while
the orchestrator sleeps. -/
structure Platform where
  processFile : String → World → Except Exn Unit × World
  hardwareConcurrency : Nat
  regexReplace : String → String
  workers : World → World

/-- The loop of lines 29-30: `n` more workers are appended. -/
def emplaceThreads : Nat → List ProcessorThread → List ProcessorThread
  | 0, threads => threads
  | n + 1, threads => emplaceThreads n (threads ++ [ProcessorThread.new])

/-- The function `queueCallback` (main.cpp, lines 19-33). -/
def queueCallback (hardwareConcurrency : Nat) (w : World) : World :=
  if w.threadsStarted then w
  else
    let numThreads := max 2 hardwareConcurrency
    let w1 :=
      if w.ctxt.verbose then
        w.emit (.printf ("Processing multiple files. Starting up " ++ toString numThreads
          ++ " additional threads.\n"))
      else w
    let w2 := { w1 with auxThreads := emplaceThreads numThreads w1.auxThreads }
    { w2 with threadsStarted := true }

/-- Modelled from the spec: `FileQueue::setDequeueEnabled`, which opens or
closes the dequeue gate (section 4.5). -/
def World.setDequeueEnabled (w : World) (enabled : Bool) : World :=
  { w with ctxt := { w.ctxt with queue := { w.ctxt.queue with dequeueEnabled := enabled } } }

/-- Lines 52-71 of `main`: the verbosity is stored, the root file is processed,
and any exception sets the error flag and is reported. -/
def mainProcess (pf : Platform) (verbFlag : Bool) (fileArg : String) (w : World) : World :=
  let w1 := { w with ctxt := { w.ctxt with verbose := verbFlag } }
  let w2 := if w1.ctxt.verbose then w1.emit (.printf "Running SemTex - Streamlined LaTeX\n") else w1
  match pf.processFile fileArg w2 with
  | (.ok (), w3) => w3
  | (.error (.InvalidInputException message _), w3) =>
      ({ w3 with ctxt := { w3.ctxt with error := true } }).emit (.fprintf (message ++ "\n"))
  | (.error (.Exception message), w3) =>
      ({ w3 with ctxt := { w3.ctxt with error := true } }).emit (.fprintf (message ++ "\n"))
  | (.error (.stdException what), w3) =>
      ({ w3 with ctxt := { w3.ctxt with error := true } }).emit
        (.fprintf ("Unexpected fatal error: " ++ what ++ "\n"))
  | (.error .unknown, w3) =>
      ({ w3 with ctxt := { w3.ctxt with error := true } }).emit (.fprintf "Unexpected fatal error")

/-- One pass through the body of the loop of lines 76-85, up to the test of
`done`: the gate is closed, the workers and the queue are inspected, the gate is
opened again. The result is `done` and the state. -/
def waitIteration (w : World) : Bool × World :=
  let w1 := w.setDequeueEnabled false
  let done := w1.auxThreads.all (fun pt => !pt.busy)
  let done := done && (w1.ctxt.queue.files.isEmpty || w1.ctxt.error)
  let w2 := w1.setDequeueEnabled true
  (done, w2)

/-- The loop of lines 76-85. Between two passes the orchestrator sleeps and the
workers act on the shared state; `fuel` bounds the number of passes, and the
result is `none` when the loop is still running after `fuel` passes. -/
def waitLoop (pf : Platform) : Nat → World → Option World
  | 0, _ => none
  | fuel + 1, w =>
    match waitIteration w with
    | (true, w1) => some w1
    | (false, w1) => waitLoop pf fuel (pf.workers (w1.emit .sleep))

/-- The loop of lines 87-88: every worker is signalled to stop. -/
def beginExitAll (w : World) : World :=
  { w with auxThreads := w.auxThreads.map (fun pt => { pt with exitRequested := true }) }

/-- Lines 73-89 of `main`: with the pool started, wait until the work is done
and signal every worker to stop. -/
def mainWait (pf : Platform) (fuel : Nat) (w : World) : Option World :=
  if w.threadsStarted then
    match waitLoop pf fuel w with
    | some w1 => some (beginExitAll w1)
    | none => none
  else some w

/-- The loop of lines 117-122 over the registry of generated files. -/
def removeGenerated : List String → World → World
  | [], w => w
  | f :: rest, w =>
    let w1 := if w.ctxt.verbose then
        w.emit (.printf ("Removing intermediate LaTeX file " ++ f ++ "\n"))
      else w
    removeGenerated rest (w1.emit (.remove f))

/-- Lines 91-129 of `main`: the typesetting step, the removal of the generated
files, the joining of the workers, and the exit status. -/
def mainFinish (pf : Platform) (keepFlag preOnlyFlag : Bool) (fileArg : String) (w : World) :
    Int × World :=
  let w1 :=
    if !w.ctxt.error then
      if !preOnlyFlag then
        let a := if w.ctxt.verbose then w.emit (.printf "Running pdflatex...\n") else w
        let texname := pf.regexReplace fileArg
        let b := a.emit .fflush
        let c := b.emit (.system ("pdflatex " ++ texname))
        if c.ctxt.verbose then c.emit (.printf "pdflatex exited.\n") else c
      else w
    else
      if w.ctxt.verbose then w.emit (.printf "Skipping pdflatex due to errors\n") else w
  let w2 :=
    if !keepFlag && !preOnlyFlag then removeGenerated w1.ctxt.generatedFiles w1 else w1
  let w3 :=
    if w2.threadsStarted then
      { w2 with auxThreads := w2.auxThreads.map (fun pt => { pt with joined := true }) }
    else w2
  (0, w3)

/-- The function `main` (main.cpp, lines 35-130) after the command line has
been parsed into the three switches and the file name; `none` when the waiting
loop has not finished within `fuel` passes. -/
def main (pf : Platform) (fuel : Nat) (verbFlag keepFlag preOnlyFlag : Bool) (fileArg : String)
    (w : World) : Option (Int × World) :=
  match mainWait pf fuel (mainProcess pf verbFlag fileArg w) with
  | some w1 => some (mainFinish pf keepFlag preOnlyFlag fileArg w1)
  | none => none

/-- The state in which `main` starts (lines 14-16): no pool, no workers, and
the context as its constructor leaves it. -/
def World.initial (ctxt : Context) : World := ⟨false, [], ctxt, []⟩

/-- The replacement of lines 97-98: a trailing `stex` or `sex` of the file name
becomes `tex`, and a name with neither ending stays as it is. -/
def texName (file : String) : String :=
  match file.data.reverse with
  | 'x' :: 'e' :: 't' :: 's' :: rest => String.mk (rest.reverse ++ "tex".data)
  | 'x' :: 'e' :: 's' :: rest => String.mk (rest.reverse ++ "tex".data)
  | _ => file

/-- Modelled from the spec: a platform for a root file without includes.
`processFile` is missing from the sources; by section 6 it produces one
generated file under the sibling name and the orchestrator keeps its path. There
are four hardware threads and the workers do nothing while the orchestrator
sleeps. -/
def Platform.rootOnly : Platform where
  processFile := fun file w =>
    (.ok (), { w with ctxt := { w.ctxt with
      generatedFiles := w.ctxt.generatedFiles ++ [texName file] } })
  hardwareConcurrency := 4
  regexReplace := texName
  workers := id

/-- No worker is busy and the queue is empty or the error flag is set: the test
of line 78-80. -/
def WorkDone (w : World) : Prop :=
  (∀ pt ∈ w.auxThreads, pt.busy = false) ∧ (w.ctxt.queue.files = [] ∨ w.ctxt.error = true)

instance (w : World) : Decidable (WorkDone w) := by
  unfold WorkDone; infer_instance

/-- The calls of `system` among the effects. -/
def systemCalls (out : List Effect) : List String :=
  out.filterMap (fun e => match e with | .system command => some command | _ => none)

/-- The paths handed to `boost::filesystem::remove` among the effects. -/
def removedPaths (out : List Effect) : List String :=
  out.filterMap (fun e => match e with | .remove path => some path | _ => none)

/-! ## The output rules in the words of the specification -/

/-- A positional argument is given when it is supplied and not empty. -/
def givenArg (argList : List String) (i : Nat) : Option String :=
  match argList[i]? with
  | some s => if s = "" then none else some s
  | none => none

/-- The lower-bound text of section 4.3: `variable=lower` (or `lower` alone)
for a given lower bound, else `variable=-\infty` (or `-\infty`) under `inf`,
else the variable alone, else nothing. -/
def lowerBoundText (inf : Bool) (var lower : Option String) : String :=
  match lower with
  | some l =>
    match var with
    | some v => "_\x7b" ++ v ++ "=" ++ l ++ "\x7d"
    | none => "_\x7b" ++ l ++ "\x7d"
  | none =>
    if inf then
      match var with
      | some v => "_\x7b" ++ v ++ "=-\\infty\x7d"
      | none => "_\x7b-\\infty\x7d"
    else
      match var with
      | some v => "_\x7b" ++ v ++ "\x7d"
      | none => ""

/-- The upper-bound text of section 4.3: the given upper bound, else `\infty`
under `inf`, else nothing. -/
def upperBoundText (inf : Bool) (upper : Option String) : String :=
  match upper with
  | some u => "^\x7b" ++ u ++ "\x7d"
  | none => if inf then "^\x7b\\infty\x7d" else ""

/-- Two replacements overlap when some byte of the buffer lies in both
spans. -/
def Replacement.overlaps (a b : Replacement) : Prop :=
  max a.start b.start < min a.«end» b.«end»

/-- The log is strictly increasing in start offset. -/
def StartsIncreasing (log : List Replacement) : Prop :=
  log.Pairwise (fun a b => a.start < b.start)

/-- The entries of the log are pairwise non-overlapping. -/
def NonOverlapping (log : List Replacement) : Prop :=
  log.Pairwise (fun a b => ¬ a.overlaps b)

/-- Every logged end offset is at most `cursor`. -/
def EndsBefore (log : List Replacement) (cursor : Nat) : Prop :=
  ∀ r ∈ log, r.«end» ≤ cursor

/-- Every logged span holds at least one byte. -/
def SpansNonEmpty (log : List Replacement) : Prop :=
  ∀ r ∈ log, r.start < r.«end»

/-- The two parsing functions never move the cursor backward. -/
def ParserOps.Forward (ops : ParserOps) : Prop :=
  ∀ p, p.curr ≤ (ops.parseMacroOptions p).2.curr ∧ p.curr ≤ (ops.parseBracketArgs p).2.curr

/-- None of the three parser functions touches the replacement log. -/
def ParserOps.KeepsLog (ops : ParserOps) : Prop :=
  ∀ p, (ops.parseMacroOptions p).2.replacements = p.replacements
    ∧ (ops.parseBracketArgs p).2.replacements = p.replacements
    ∧ ∀ msg, (ops.errorOnLine msg p).2.replacements = p.replacements

/-- The function `errorOnLine` always throws. -/
def ParserOps.Throws (ops : ParserOps) : Prop :=
  ∀ msg p, ∃ e, (ops.errorOnLine msg p).1 = .error e

/-- The replacement text carries the limits directive right after `\sum`. -/
def hasLimits (text : String) : Prop := "\\sum\\limits".data <+: text.data

instance (text : String) : Decidable (hasLimits text) := by
  unfold hasLimits; infer_instance

/-! ## Lemmas on the summation replacer -/

theorem checkFlags_accepted (ops : ParserOps) (flags : List String) (pi : Parser)
    (h : ∀ f ∈ flags, f ∈ acceptedFlags) : checkFlags ops flags pi = (.ok (), pi) := by
  induction flags with
  | nil => rfl
  | cons f rest ih =>
    have hf : f ∈ acceptedFlags := h f (List.mem_cons_self _ _)
    have hrest : ∀ g ∈ rest, g ∈ acceptedFlags := fun g hg => h g (List.mem_cons_of_mem _ hg)
    simp only [checkFlags, hf, if_true]
    exact ih hrest

theorem replace_of_valid (ops : ParserOps) (matchedKey : String) (pi : Parser)
    (options : MacroOptions) (argList : List String) (pi1 pi2 : Parser)
    (h1 : ops.parseMacroOptions { pi with curr := pi.curr + matchedKey.utf8ByteSize }
      = (.ok options, pi1))
    (h2 : ops.parseBracketArgs pi1 = (.ok argList, pi2))
    (hopts : options.opts = [])
    (hflags : ∀ f ∈ options.flags, f ∈ acceptedFlags)
    (hargs : argList.length ≤ 3) :
    replace ops matchedKey pi = (.ok (), { pi2 with
      replacements :=
        pi2.replacements ++ [⟨pi.curr, pi2.curr, replacementText options argList⟩] }) := by
  have h3 : ¬ argList.length > 3 := by omega
  simp only [replace, validateAndAppend, h1, h2, hopts, List.length_nil, ne_eq,
    not_true_eq_false, if_false, checkFlags_accepted ops options.flags pi2 hflags, h3]

theorem replacementText_eq (options : MacroOptions) (argList : List String) :
    replacementText options argList =
      "\\sum"
      ++ (if "lim" ∈ options.flags ∧
            ((givenArg argList 1).isSome ∨ (givenArg argList 2).isSome ∨ "inf" ∈ options.flags)
          then "\\limits" else "")
      ++ lowerBoundText (decide ("inf" ∈ options.flags)) argList[0]? (givenArg argList 1)
      ++ upperBoundText (decide ("inf" ∈ options.flags)) (givenArg argList 2) := by
  match argList with
  | [] =>
    by_cases hi : "inf" ∈ options.flags <;> by_cases hl : "lim" ∈ options.flags <;>
      simp [replacementText, givenArg, lowerBoundText, upperBoundText, hi, hl, String.append_assoc]
  | [a] =>
    by_cases hi : "inf" ∈ options.flags <;> by_cases hl : "lim" ∈ options.flags <;>
      simp [replacementText, givenArg, lowerBoundText, upperBoundText, hi, hl, String.append_assoc]
  | [a, b] =>
    by_cases hi : "inf" ∈ options.flags <;> by_cases hl : "lim" ∈ options.flags <;>
      by_cases hb : b = "" <;>
      simp [replacementText, givenArg, lowerBoundText, upperBoundText, hi, hl, hb,
        String.append_assoc]
  | a :: b :: c :: rest =>
    by_cases hi : "inf" ∈ options.flags <;> by_cases hl : "lim" ∈ options.flags <;>
      by_cases hb : b = "" <;> by_cases hc : c = "" <;>
      simp [replacementText, givenArg, lowerBoundText, upperBoundText, hi, hl, hb, hc,
        String.append_assoc]

theorem lowerBoundText_data (inf : Bool) (var lower : Option String) :
    lowerBoundText inf var lower = "" ∨
      ∃ rest, (lowerBoundText inf var lower).data = '_' :: rest := by
  cases lower <;> cases var <;> cases inf <;> simp [lowerBoundText]

theorem upperBoundText_data (inf : Bool) (upper : Option String) :
    upperBoundText inf upper = "" ∨
      ∃ rest, (upperBoundText inf upper).data = '^' :: rest := by
  cases upper <;> cases inf <;> simp [upperBoundText]

theorem hasLimits_replacementText (options : MacroOptions) (argList : List String) :
    hasLimits (replacementText options argList) ↔
      ("lim" ∈ options.flags ∧
        ((givenArg argList 1).isSome ∨ (givenArg argList 2).isSome ∨ "inf" ∈ options.flags)) := by
  rw [replacementText_eq]
  by_cases hc : "lim" ∈ options.flags ∧
      ((givenArg argList 1).isSome ∨ (givenArg argList 2).isSome ∨ "inf" ∈ options.flags)
  · simp only [hc, and_self, if_true, iff_true]
    simp [hasLimits, String.data_append]
  · simp only [hc, if_false, iff_false]
    rcases lowerBoundText_data (decide ("inf" ∈ options.flags)) argList[0]? (givenArg argList 1)
      with hlo | ⟨r, hlo⟩
    · rcases upperBoundText_data (decide ("inf" ∈ options.flags)) (givenArg argList 2)
        with hup | ⟨r, hup⟩
      · simp [hasLimits, String.data_append, hlo, hup]
      · simp [hasLimits, String.data_append, hlo, hup]
    · simp [hasLimits, String.data_append, hlo]

theorem checkFlags_rejected (ops : ParserOps) (hthrow : ops.Throws)
    (flags : List String) (pi : Parser) (h : ∃ f ∈ flags, f ∉ acceptedFlags) :
    ∃ e, (checkFlags ops flags pi).1 = .error e := by
  induction flags generalizing pi with
  | nil => obtain ⟨f, hf, _⟩ := h; cases hf
  | cons g rest ih =>
    by_cases hg : g ∈ acceptedFlags
    · simp only [checkFlags, hg, if_true]
      apply ih
      obtain ⟨f, hf, hbad⟩ := h
      rcases List.mem_cons.mp hf with rfl | hmem
      · exact absurd hg hbad
      · exact ⟨f, hmem, hbad⟩
    · obtain ⟨e, he⟩ := hthrow ("Unknown argument \"" ++ g ++ "\" for \\summation") pi
      have hp : ops.errorOnLine ("Unknown argument \"" ++ g ++ "\" for \\summation") pi
          = (.error e, (ops.errorOnLine ("Unknown argument \"" ++ g ++ "\" for \\summation") pi).2) :=
        Prod.ext he rfl
      simp only [checkFlags, hg, if_false]
      rw [hp]
      exact ⟨e, rfl⟩

theorem pair_of_fst_error {α : Type} (x : Except Exn α × Parser) (e : Exn)
    (h : x.1 = .error e) : x = (.error e, x.2) :=
  Prod.ext h rfl

theorem validateAndAppend_of_valid (ops : ParserOps) (start : Nat) (options : MacroOptions)
    (argList : List String) (pi2 : Parser)
    (hopts : options.opts = [])
    (hflags : ∀ f ∈ options.flags, f ∈ acceptedFlags)
    (hargs : argList.length ≤ 3) :
    validateAndAppend ops start options argList pi2 = (.ok (), { pi2 with
      replacements :=
        pi2.replacements ++ [⟨start, pi2.curr, replacementText options argList⟩] }) := by
  have h3 : ¬ argList.length > 3 := by omega
  simp only [validateAndAppend, hopts, List.length_nil, ne_eq, not_true_eq_false, if_false,
    checkFlags_accepted ops options.flags pi2 hflags, h3]

theorem validateAndAppend_fails_iff (ops : ParserOps) (hthrow : ops.Throws) (start : Nat)
    (options : MacroOptions) (argList : List String) (pi2 : Parser) :
    (∃ e, (validateAndAppend ops start options argList pi2).1 = .error e) ↔
      (3 < argList.length ∨ options.opts ≠ [] ∨ ∃ f ∈ options.flags, f ∉ acceptedFlags) := by
  by_cases hopts : options.opts = []
  · by_cases hflags : ∀ f ∈ options.flags, f ∈ acceptedFlags
    · by_cases hargs : 3 < argList.length
      · obtain ⟨e, he⟩ := hthrow "Too many arguments for \\summation" pi2
        have hp := pair_of_fst_error _ e he
        have hgt : argList.length > 3 := hargs
        have hv : (validateAndAppend ops start options argList pi2).1 = .error e := by
          simp only [validateAndAppend, hopts, List.length_nil, ne_eq, not_true_eq_false,
            if_false, checkFlags_accepted ops options.flags pi2 hflags, hgt, if_true]
          rw [hp]
        exact ⟨fun _ => Or.inl hargs, fun _ => ⟨e, hv⟩⟩
      · rw [validateAndAppend_of_valid ops start options argList pi2 hopts hflags (by omega)]
        constructor
        · rintro ⟨e, he⟩
          cases he
        · rintro (h | h | ⟨f, hf, hbad⟩)
          · exact absurd h hargs
          · exact absurd hopts h
          · exact absurd (hflags f hf) hbad
    · have hbad : ∃ f ∈ options.flags, f ∉ acceptedFlags := by
        push_neg at hflags
        exact hflags
      obtain ⟨e, he⟩ := checkFlags_rejected ops hthrow options.flags pi2 hbad
      have hp := pair_of_fst_error _ e he
      have hv : (validateAndAppend ops start options argList pi2).1 = .error e := by
        simp only [validateAndAppend, hopts, List.length_nil, ne_eq, not_true_eq_false, if_false]
        rw [hp]
      exact ⟨fun _ => Or.inr (Or.inr hbad), fun _ => ⟨e, hv⟩⟩
  · obtain ⟨e, he⟩ := hthrow "\\summation does not take options" pi2
    have hp := pair_of_fst_error _ e he
    have hlen : options.opts.length ≠ 0 := fun h => hopts (List.length_eq_zero.mp h)
    have hv : (validateAndAppend ops start options argList pi2).1 = .error e := by
      simp only [validateAndAppend, hlen, ne_eq, not_false_eq_true, if_true]
      rw [hp]
    exact ⟨fun _ => Or.inr (Or.inl hopts), fun _ => ⟨e, hv⟩⟩

theorem checkFlags_log (ops : ParserOps) (hk : ops.KeepsLog) (flags : List String)
    (pi : Parser) : (checkFlags ops flags pi).2.replacements = pi.replacements := by
  induction flags generalizing pi with
  | nil => rfl
  | cons g rest ih =>
    by_cases hg : g ∈ acceptedFlags
    · simp only [checkFlags, hg, if_true]
      exact ih pi
    · have hlog := (hk pi).2.2 ("Unknown argument \"" ++ g ++ "\" for \\summation")
      simp only [checkFlags, hg, if_false]
      rcases h : ops.errorOnLine ("Unknown argument \"" ++ g ++ "\" for \\summation") pi
        with ⟨r, p1⟩
      rw [h] at hlog
      cases r with
      | error e => exact hlog
      | ok u => exact (ih p1).trans hlog

theorem guard_log (ops : ParserOps) (hk : ops.KeepsLog) (c : Prop) [Decidable c]
    (msg : String) (p : Parser) :
    (if c then ops.errorOnLine msg p else (.ok (), p)).2.replacements = p.replacements := by
  split_ifs
  · exact (hk p).2.2 msg
  · rfl

theorem validateAndAppend_log (ops : ParserOps) (hk : ops.KeepsLog) (start : Nat)
    (options : MacroOptions) (argList : List String) (pi2 : Parser) :
    ∃ p : Parser, p.replacements = pi2.replacements ∧
      ((∃ e, validateAndAppend ops start options argList pi2 = (.error e, p))
        ∨ validateAndAppend ops start options argList pi2 = (.ok (), { p with
            replacements :=
              p.replacements ++ [⟨start, p.curr, replacementText options argList⟩] })) := by
  have g3 := guard_log ops hk (options.opts.length ≠ 0) "\\summation does not take options" pi2
  unfold validateAndAppend
  rcases h3 : (if options.opts.length ≠ 0 then
      ops.errorOnLine "\\summation does not take options" pi2 else (.ok (), pi2)) with ⟨r3, pi3⟩
  rw [h3] at g3
  cases r3 with
  | error e3 => exact ⟨pi3, g3, Or.inl ⟨e3, rfl⟩⟩
  | ok u3 =>
    cases u3
    dsimp only
    have g4 := checkFlags_log ops hk options.flags pi3
    rcases h4 : checkFlags ops options.flags pi3 with ⟨r4, pi4⟩
    rw [h4] at g4
    cases r4 with
    | error e4 => exact ⟨pi4, g4.trans g3, Or.inl ⟨e4, rfl⟩⟩
    | ok u4 =>
      cases u4
      dsimp only
      have g5 := guard_log ops hk (argList.length > 3) "Too many arguments for \\summation" pi4
      rcases h5 : (if argList.length > 3 then
          ops.errorOnLine "Too many arguments for \\summation" pi4 else (.ok (), pi4))
        with ⟨r5, pi5⟩
      rw [h5] at g5
      cases r5 with
      | error e5 => exact ⟨pi5, (g5.trans g4).trans g3, Or.inl ⟨e5, rfl⟩⟩
      | ok u5 =>
        cases u5
        exact ⟨pi5, (g5.trans g4).trans g3, Or.inr rfl⟩

theorem replace_parsed (ops : ParserOps) (matchedKey : String) (pi : Parser) :
    (∃ e p, replace ops matchedKey pi = (.error e, p)
        ∧ (p = (ops.parseMacroOptions { pi with curr := pi.curr + matchedKey.utf8ByteSize }).2
          ∨ p = (ops.parseBracketArgs (ops.parseMacroOptions
                { pi with curr := pi.curr + matchedKey.utf8ByteSize }).2).2))
    ∨ ∃ options argList pi1 pi2,
        ops.parseMacroOptions { pi with curr := pi.curr + matchedKey.utf8ByteSize }
          = (.ok options, pi1)
        ∧ ops.parseBracketArgs pi1 = (.ok argList, pi2)
        ∧ replace ops matchedKey pi = validateAndAppend ops pi.curr options argList pi2 := by
  simp only [replace]
  rcases h1 : ops.parseMacroOptions { pi with curr := pi.curr + matchedKey.utf8ByteSize }
    with ⟨r1, pi1⟩
  cases r1 with
  | error e1 => exact Or.inl ⟨rethrow e1, pi1, rfl, Or.inl rfl⟩
  | ok options =>
    dsimp only
    rcases h2 : ops.parseBracketArgs pi1 with ⟨r2, pi2⟩
    cases r2 with
    | error e2 => exact Or.inl ⟨rethrow e2, pi2, rfl, Or.inr rfl⟩
    | ok argList => exact Or.inr ⟨options, argList, pi1, pi2, rfl, h2, rfl⟩

theorem replace_of_parsed (ops : ParserOps) (matchedKey : String) (pi : Parser)
    (options : MacroOptions) (argList : List String) (pi1 pi2 : Parser)
    (h1 : ops.parseMacroOptions { pi with curr := pi.curr + matchedKey.utf8ByteSize }
      = (.ok options, pi1))
    (h2 : ops.parseBracketArgs pi1 = (.ok argList, pi2)) :
    replace ops matchedKey pi = validateAndAppend ops pi.curr options argList pi2 := by
  simp only [replace, h1, h2]

theorem validateAndAppend_ok_valid (ops : ParserOps) (hthrow : ops.Throws) (start : Nat)
    (options : MacroOptions) (argList : List String) (pi2 : Parser)
    (hok : (validateAndAppend ops start options argList pi2).1 = .ok ()) :
    options.opts = [] ∧ (∀ f ∈ options.flags, f ∈ acceptedFlags) ∧ argList.length ≤ 3 := by
  have hno : ¬ ∃ e, (validateAndAppend ops start options argList pi2).1 = .error e := by
    rintro ⟨e, he⟩
    rw [hok] at he
    cases he
  rw [validateAndAppend_fails_iff ops hthrow] at hno
  push_neg at hno
  exact ⟨hno.2.1, hno.2.2, by omega⟩

theorem utf8ByteSize_pos (s : String) (h : s ≠ "") : 0 < s.utf8ByteSize := by
  rcases s with ⟨l⟩
  cases l with
  | nil => exact absurd rfl h
  | cons c cs =>
    have hc := Char.utf8Size_pos c
    simp only [String.utf8ByteSize, String.utf8ByteSize.go]
    omega

theorem bufferOps_throws (buf : List Char) : (bufferOps buf).Throws :=
  fun _ _ => ⟨_, rfl⟩

theorem bufferOps_keepsLog (buf : List Char) : (bufferOps buf).KeepsLog := by
  intro p
  refine ⟨?_, ?_, fun _ => rfl⟩
  · show (parseMacroOptions buf p).2.replacements = p.replacements
    unfold parseMacroOptions
    split
    · split <;> rfl
    · rfl
  · show (parseBracketArgs buf p).2.replacements = p.replacements
    unfold parseBracketArgs
    dsimp only
    split <;> rfl

theorem bufferOps_forward (buf : List Char) : (bufferOps buf).Forward := by
  intro p
  constructor
  · show p.curr ≤ (parseMacroOptions buf p).2.curr
    unfold parseMacroOptions
    split
    · split
      · exact Nat.le_add_right _ _
      · exact Nat.le_refl _
    · exact Nat.le_refl _
  · show p.curr ≤ (parseBracketArgs buf p).2.curr
    unfold parseBracketArgs
    dsimp only
    split
    · exact Nat.le_add_right _ _
    · exact Nat.le_refl _

/-! ## The claims on the summation replacer -/

/-- C1: for an invocation that passes validation (no key-value option, every
flag among `inf` and `lim`, at most three positional arguments) and whose
variable is not supplied or not empty, `replace` succeeds and appends the text
`\sum`, then possibly `\limits`, then the lower-bound text, then the upper-bound
text of the output selection rules. -/
theorem replace_text_of_valid (ops : ParserOps) (matchedKey : String) (pi : Parser)
    (options : MacroOptions) (argList : List String) (pi1 pi2 : Parser)
    (h1 : ops.parseMacroOptions { pi with curr := pi.curr + matchedKey.utf8ByteSize }
      = (.ok options, pi1))
    (h2 : ops.parseBracketArgs pi1 = (.ok argList, pi2))
    (hopts : options.opts = [])
    (hflags : ∀ f ∈ options.flags, f ∈ acceptedFlags)
    (hargs : argList.length ≤ 3)
    (hvar : argList[0]? ≠ some "") :
    ∃ limits : String, (limits = "" ∨ limits = "\\limits") ∧
      replace ops matchedKey pi = (.ok (), { pi2 with
        replacements := pi2.replacements ++ [⟨pi.curr, pi2.curr,
          "\\sum" ++ limits
          ++ lowerBoundText (decide ("inf" ∈ options.flags))
              (givenArg argList 0) (givenArg argList 1)
          ++ upperBoundText (decide ("inf" ∈ options.flags)) (givenArg argList 2)⟩] }) := by
  have hgiven : givenArg argList 0 = argList[0]? := by
    unfold givenArg
    cases h0 : argList[0]? with
    | none => rfl
    | some a =>
      have ha : a ≠ "" := fun hEq => hvar (by rw [h0, hEq])
      simp [ha]
  refine ⟨if "lim" ∈ options.flags ∧
      ((givenArg argList 1).isSome ∨ (givenArg argList 2).isSome ∨ "inf" ∈ options.flags)
      then "\\limits" else "", ?_, ?_⟩
  · split_ifs
    · exact Or.inr rfl
    · exact Or.inl rfl
  · rw [replace_of_valid ops matchedKey pi options argList pi1 pi2 h1 h2 hopts hflags hargs,
      replacementText_eq, hgiven]

/-- C1, at `\summ{i}{1}{n}` and at `\summ[inf]{i}`: the premises hold, and the
texts are `\sum_{i=1}^{n}` and `\sum_{i=-\infty}^{\infty}`. -/
theorem replace_text_of_valid_witness :
    (∃ limits : String, (limits = "" ∨ limits = "\\limits") ∧
      replace (bufferOps "\\summ\x7bi\x7d\x7b1\x7d\x7bn\x7d".data) "\\summ" (parserAt "a.stex" 14 0 [])
        = (.ok (), { parserAt "a.stex" 14 14 [] with
            replacements := [] ++ [⟨0, 14,
              "\\sum" ++ limits
              ++ lowerBoundText (decide ("inf" ∈ ([] : List String)))
                  (givenArg ["i", "1", "n"] 0) (givenArg ["i", "1", "n"] 1)
              ++ upperBoundText (decide ("inf" ∈ ([] : List String)))
                  (givenArg ["i", "1", "n"] 2)⟩] }))
    ∧ (replace (bufferOps "\\summ\x7bi\x7d\x7b1\x7d\x7bn\x7d".data) "\\summ" (parserAt "a.stex" 14 0 [])).2.replacements
        = [⟨0, 14, "\\sum_\x7bi=1\x7d^\x7bn\x7d"⟩]
    ∧ (replace (bufferOps "\\summ[inf]\x7bi\x7d".data) "\\summ" (parserAt "a.stex" 13 0 [])).2.replacements
        = [⟨0, 13, "\\sum_\x7bi=-\\infty\x7d^\x7b\\infty\x7d"⟩] :=
  ⟨replace_text_of_valid (bufferOps "\\summ\x7bi\x7d\x7b1\x7d\x7bn\x7d".data) "\\summ" (parserAt "a.stex" 14 0 [])
      ⟨[], []⟩ ["i", "1", "n"] (parserAt "a.stex" 14 5 []) (parserAt "a.stex" 14 14 [])
      rfl rfl rfl (by decide) (by decide) (by decide),
    by decide, by decide⟩

/-- C2, at the invocation `\summ{}{1}{}` (empty flag set, arguments "", "1",
""): the code succeeds with the text `\sum_{=1}`, which is not `\sum_{1}`; the
empty variable still contributes `=`. -/
theorem replace_empty_variable :
    replace (bufferOps "\\summ\x7b\x7d\x7b1\x7d\x7b\x7d".data) "\\summ" (parserAt "a.stex" 12 0 [])
        = (.ok (), parserAt "a.stex" 12 12 [⟨0, 12, "\\sum_\x7b=1\x7d"⟩])
    ∧ replacementText ⟨[], []⟩ ["", "1", ""] = "\\sum_\x7b=1\x7d"
    ∧ replacementText ⟨[], []⟩ ["", "1", ""] ≠ "\\sum_\x7b1\x7d" :=
  ⟨rfl, by decide, by decide⟩

/-- C3 as stated fails at `\summ[lim]{i}`: `lim` is set and the lower-bound
text `_{i}` is produced, yet the text is `\sum_{i}`, without `\limits`. -/
theorem limits_counterexample :
    ¬ (hasLimits (replacementText ⟨["lim"], []⟩ ["i"]) ↔
        ("lim" ∈ ["lim"] ∧
          (lowerBoundText (decide ("inf" ∈ ["lim"])) (givenArg ["i"] 0) (givenArg ["i"] 1) ≠ ""
            ∨ upperBoundText (decide ("inf" ∈ ["lim"])) (givenArg ["i"] 2) ≠ ""
            ∨ "inf" ∈ ["lim"]))) := by
  decide

/-- C3, amended: for an invocation that passes validation, `replace` succeeds
and its text carries `\limits` right after `\sum` if and only if `lim` is set
and a lower bound is given, or an upper bound is given, or `inf` is set. -/
theorem replace_limits_iff (ops : ParserOps) (matchedKey : String) (pi : Parser)
    (options : MacroOptions) (argList : List String) (pi1 pi2 : Parser)
    (h1 : ops.parseMacroOptions { pi with curr := pi.curr + matchedKey.utf8ByteSize }
      = (.ok options, pi1))
    (h2 : ops.parseBracketArgs pi1 = (.ok argList, pi2))
    (hopts : options.opts = [])
    (hflags : ∀ f ∈ options.flags, f ∈ acceptedFlags)
    (hargs : argList.length ≤ 3) :
    replace ops matchedKey pi = (.ok (), { pi2 with
        replacements :=
          pi2.replacements ++ [⟨pi.curr, pi2.curr, replacementText options argList⟩] })
    ∧ (hasLimits (replacementText options argList) ↔
        ("lim" ∈ options.flags ∧
          ((givenArg argList 1).isSome ∨ (givenArg argList 2).isSome
            ∨ "inf" ∈ options.flags))) :=
  ⟨replace_of_valid ops matchedKey pi options argList pi1 pi2 h1 h2 hopts hflags hargs,
    hasLimits_replacementText options argList⟩

/-- C3, amended, at `\summ[lim]{i}{1}{n}` and at `\summ[inf,lim]{k}`: the texts
are `\sum\limits_{i=1}^{n}` and `\sum\limits_{k=-\infty}^{\infty}`. -/
theorem replace_limits_iff_witness :
    (replace (bufferOps "\\summ[lim]\x7bi\x7d\x7b1\x7d\x7bn\x7d".data) "\\summ" (parserAt "a.stex" 19 0 [])
        = (.ok (), { parserAt "a.stex" 19 19 [] with
            replacements :=
              [] ++ [⟨0, 19, replacementText ⟨["lim"], []⟩ ["i", "1", "n"]⟩] })
      ∧ (hasLimits (replacementText ⟨["lim"], []⟩ ["i", "1", "n"]) ↔
          ("lim" ∈ ["lim"] ∧
            ((givenArg ["i", "1", "n"] 1).isSome ∨ (givenArg ["i", "1", "n"] 2).isSome
              ∨ "inf" ∈ ["lim"]))))
    ∧ replacementText ⟨["lim"], []⟩ ["i", "1", "n"] = "\\sum\\limits_\x7bi=1\x7d^\x7bn\x7d"
    ∧ (replace (bufferOps "\\summ[inf,lim]\x7bk\x7d".data) "\\summ" (parserAt "a.stex" 17 0 [])).2.replacements
        = [⟨0, 17, "\\sum\\limits_\x7bk=-\\infty\x7d^\x7b\\infty\x7d"⟩] :=
  ⟨replace_limits_iff (bufferOps "\\summ[lim]\x7bi\x7d\x7b1\x7d\x7bn\x7d".data) "\\summ" (parserAt "a.stex" 19 0 [])
      ⟨["lim"], []⟩ ["i", "1", "n"] (parserAt "a.stex" 19 10 []) (parserAt "a.stex" 19 19 [])
      rfl rfl rfl (by decide) (by decide),
    by decide, by decide⟩

/-- C4: when the options and the arguments have been parsed and `errorOnLine`
always throws, `replace` fails if and only if there are more than three
positional arguments, or a key-value option, or a flag other than `inf` and
`lim`; with none of these it succeeds. -/
theorem replace_fails_iff (ops : ParserOps) (matchedKey : String) (pi : Parser)
    (options : MacroOptions) (argList : List String) (pi1 pi2 : Parser)
    (h1 : ops.parseMacroOptions { pi with curr := pi.curr + matchedKey.utf8ByteSize }
      = (.ok options, pi1))
    (h2 : ops.parseBracketArgs pi1 = (.ok argList, pi2))
    (hthrow : ops.Throws) :
    ((∃ e, (replace ops matchedKey pi).1 = .error e) ↔
      (3 < argList.length ∨ options.opts ≠ [] ∨ ∃ f ∈ options.flags, f ∉ acceptedFlags))
    ∧ (options.opts = [] → (∀ f ∈ options.flags, f ∈ acceptedFlags) → argList.length ≤ 3 →
        (replace ops matchedKey pi).1 = .ok ()) := by
  rw [replace_of_parsed ops matchedKey pi options argList pi1 pi2 h1 h2]
  refine ⟨validateAndAppend_fails_iff ops hthrow pi.curr options argList pi2, ?_⟩
  intro hopts hflags hargs
  rw [validateAndAppend_of_valid ops pi.curr options argList pi2 hopts hflags hargs]

/-- C4, at `\summ{a}{b}{c}{d}`: parsing succeeds with four arguments, and the
call fails with the diagnostic for too many arguments. -/
theorem replace_fails_iff_witness :
    (((∃ e, (replace (bufferOps "\\summ\x7ba\x7d\x7bb\x7d\x7bc\x7d\x7bd\x7d".data) "\\summ"
          (parserAt "a.stex" 17 0 [])).1 = .error e) ↔
        (3 < ["a", "b", "c", "d"].length ∨ ([] : List (String × String)) ≠ []
          ∨ ∃ f ∈ ([] : List String), f ∉ acceptedFlags))
      ∧ (([] : List (String × String)) = [] → (∀ f ∈ ([] : List String), f ∈ acceptedFlags) →
          ["a", "b", "c", "d"].length ≤ 3 →
          (replace (bufferOps "\\summ\x7ba\x7d\x7bb\x7d\x7bc\x7d\x7bd\x7d".data) "\\summ"
            (parserAt "a.stex" 17 0 [])).1 = .ok ()))
    ∧ replace (bufferOps "\\summ\x7ba\x7d\x7bb\x7d\x7bc\x7d\x7bd\x7d".data) "\\summ" (parserAt "a.stex" 17 0 [])
        = (.error (.InvalidInputException "a.stex:1: Too many arguments for \\summation"
            "errorOnLine"), parserAt "a.stex" 17 17 []) :=
  ⟨replace_fails_iff (bufferOps "\\summ\x7ba\x7d\x7bb\x7d\x7bc\x7d\x7bd\x7d".data) "\\summ" (parserAt "a.stex" 17 0 [])
      ⟨[], []⟩ ["a", "b", "c", "d"] (parserAt "a.stex" 17 5 []) (parserAt "a.stex" 17 17 [])
      rfl rfl (bufferOps_throws _),
    rfl⟩

/-- C5 as stated fails when the log holds an empty span at the cursor: with the
buffer `abcde\summ{i}`, the cursor at offset 5 and the log holding the span from
5 to 5, every premise holds and the call succeeds, yet the new entry also starts
at 5, so the log is no longer strictly increasing in start offset. -/
theorem log_order_counterexample :
    StartsIncreasing [⟨5, 5, ""⟩]
    ∧ NonOverlapping [⟨5, 5, ""⟩]
    ∧ EndsBefore [⟨5, 5, ""⟩] 5
    ∧ "\\summ" ≠ ""
    ∧ (bufferOps "abcde\\summ\x7bi\x7d".data).Forward
    ∧ replace (bufferOps "abcde\\summ\x7bi\x7d".data) "\\summ" (parserAt "a.stex" 13 5 [⟨5, 5, ""⟩])
        = (.ok (), parserAt "a.stex" 13 13 [⟨5, 5, ""⟩, ⟨5, 13, "\\sum_\x7bi\x7d"⟩])
    ∧ ¬ StartsIncreasing (replace (bufferOps "abcde\\summ\x7bi\x7d".data) "\\summ"
          (parserAt "a.stex" 13 5 [⟨5, 5, ""⟩])).2.replacements := by
  refine ⟨?_, ?_, ?_, by decide, bufferOps_forward _, rfl, ?_⟩
  · simp [StartsIncreasing]
  · simp [NonOverlapping]
  · simp [EndsBefore]
  · have h : (replace (bufferOps "abcde\\summ\x7bi\x7d".data) "\\summ"
        (parserAt "a.stex" 13 5 [⟨5, 5, ""⟩])).2.replacements
        = [⟨5, 5, ""⟩, ⟨5, 13, "\\sum_\x7bi\x7d"⟩] := rfl
    rw [h]
    simp [StartsIncreasing]

/-- C5, amended: if before the call the log is strictly increasing in start
offset, pairwise non-overlapping, every logged span is non-empty and ends at or
before the cursor, the trigger is non-empty, the two parsing functions never
move the cursor backward, no parser function touches the log and `errorOnLine`
always throws, then after a successful call the log has all four properties
again, with respect to the new cursor. -/
theorem replace_keeps_log_ordered (ops : ParserOps) (matchedKey : String) (pi : Parser)
    (hinc : StartsIncreasing pi.replacements)
    (hdisj : NonOverlapping pi.replacements)
    (hends : EndsBefore pi.replacements pi.curr)
    (hne : SpansNonEmpty pi.replacements)
    (hkey : matchedKey ≠ "")
    (hfwd : ops.Forward) (hk : ops.KeepsLog) (hthrow : ops.Throws)
    (hok : (replace ops matchedKey pi).1 = .ok ()) :
    StartsIncreasing (replace ops matchedKey pi).2.replacements
    ∧ NonOverlapping (replace ops matchedKey pi).2.replacements
    ∧ EndsBefore (replace ops matchedKey pi).2.replacements (replace ops matchedKey pi).2.curr
    ∧ SpansNonEmpty (replace ops matchedKey pi).2.replacements := by
  rcases replace_parsed ops matchedKey pi with ⟨e, p, hrep, _⟩ | ⟨options, argList, pi1, pi2, h1, h2, hrep⟩
  · rw [hrep] at hok
    cases hok
  · rw [hrep] at hok ⊢
    obtain ⟨hopts, hflags, hargs⟩ :=
      validateAndAppend_ok_valid ops hthrow pi.curr options argList pi2 hok
    rw [validateAndAppend_of_valid ops pi.curr options argList pi2 hopts hflags hargs]
    have hlen := utf8ByteSize_pos matchedKey hkey
    have hc1 : pi.curr + matchedKey.utf8ByteSize ≤ pi1.curr := by
      have := (hfwd { pi with curr := pi.curr + matchedKey.utf8ByteSize }).1
      rw [h1] at this
      exact this
    have hc2 : pi1.curr ≤ pi2.curr := by
      have := (hfwd pi1).2
      rw [h2] at this
      exact this
    have hl1 : pi1.replacements = pi.replacements := by
      have := (hk { pi with curr := pi.curr + matchedKey.utf8ByteSize }).1
      rw [h1] at this
      exact this
    have hl2 : pi2.replacements = pi1.replacements := by
      have := (hk pi1).2.1
      rw [h2] at this
      exact this
    have hlog : pi2.replacements = pi.replacements := hl2.trans hl1
    show StartsIncreasing (pi2.replacements ++ _) ∧ NonOverlapping (pi2.replacements ++ _)
      ∧ EndsBefore (pi2.replacements ++ _) pi2.curr ∧ SpansNonEmpty (pi2.replacements ++ _)
    rw [hlog]
    refine ⟨?_, ?_, ?_, ?_⟩
    · refine List.pairwise_append.mpr ⟨hinc, List.pairwise_singleton _ _, ?_⟩
      intro a ha b hb
      rw [List.mem_singleton] at hb
      subst hb
      have h1' := hne a ha
      have h2' := hends a ha
      show a.start < pi.curr
      omega
    · refine List.pairwise_append.mpr ⟨hdisj, List.pairwise_singleton _ _, ?_⟩
      intro a ha b hb
      rw [List.mem_singleton] at hb
      subst hb
      have h2' := hends a ha
      show ¬ (max a.start pi.curr < min a.«end» pi2.curr)
      omega
    · intro r hr
      rcases List.mem_append.mp hr with hr | hr
      · have := hends r hr
        omega
      · rw [List.mem_singleton] at hr
        subst hr
        exact Nat.le_refl _
    · intro r hr
      rcases List.mem_append.mp hr with hr | hr
      · exact hne r hr
      · rw [List.mem_singleton] at hr
        subst hr
        show pi.curr < pi2.curr
        omega

/-- C5, amended, at the buffer `\summ{i}{1}{n}\summ{k}` with the first
invocation already logged and the cursor at offset 14. -/
theorem replace_keeps_log_ordered_witness :
    StartsIncreasing (replace (bufferOps "\\summ\x7bi\x7d\x7b1\x7d\x7bn\x7d\\summ\x7bk\x7d".data) "\\summ"
        (parserAt "a.stex" 22 14 [⟨0, 14, "\\sum_\x7bi=1\x7d^\x7bn\x7d"⟩])).2.replacements
    ∧ NonOverlapping (replace (bufferOps "\\summ\x7bi\x7d\x7b1\x7d\x7bn\x7d\\summ\x7bk\x7d".data) "\\summ"
        (parserAt "a.stex" 22 14 [⟨0, 14, "\\sum_\x7bi=1\x7d^\x7bn\x7d"⟩])).2.replacements
    ∧ EndsBefore (replace (bufferOps "\\summ\x7bi\x7d\x7b1\x7d\x7bn\x7d\\summ\x7bk\x7d".data) "\\summ"
        (parserAt "a.stex" 22 14 [⟨0, 14, "\\sum_\x7bi=1\x7d^\x7bn\x7d"⟩])).2.replacements
        (replace (bufferOps "\\summ\x7bi\x7d\x7b1\x7d\x7bn\x7d\\summ\x7bk\x7d".data) "\\summ"
          (parserAt "a.stex" 22 14 [⟨0, 14, "\\sum_\x7bi=1\x7d^\x7bn\x7d"⟩])).2.curr
    ∧ SpansNonEmpty (replace (bufferOps "\\summ\x7bi\x7d\x7b1\x7d\x7bn\x7d\\summ\x7bk\x7d".data) "\\summ"
        (parserAt "a.stex" 22 14 [⟨0, 14, "\\sum_\x7bi=1\x7d^\x7bn\x7d"⟩])).2.replacements :=
  replace_keeps_log_ordered (bufferOps "\\summ\x7bi\x7d\x7b1\x7d\x7bn\x7d\\summ\x7bk\x7d".data) "\\summ"
    (parserAt "a.stex" 22 14 [⟨0, 14, "\\sum_\x7bi=1\x7d^\x7bn\x7d"⟩])
    (by simp [StartsIncreasing, parserAt]) (by simp [NonOverlapping, parserAt])
    (by simp [EndsBefore, parserAt]) (by simp [SpansNonEmpty, parserAt]) (by decide)
    (bufferOps_forward _) (bufferOps_keepsLog _) (bufferOps_throws _) rfl

/-- C6: when no parser function touches the log, a call of `replace` that fails
leaves the log as it was, and a call that succeeds appends exactly one entry to
the unchanged log: it starts at the cursor at entry, ends at the cursor at exit,
and holds the text computed from the parsed options and arguments; when
`errorOnLine` always throws, the cursor at exit is the cursor after the
arguments were parsed. -/
theorem replace_appends_at_most_one (ops : ParserOps) (matchedKey : String) (pi : Parser)
    (hk : ops.KeepsLog) :
    (∀ e, (replace ops matchedKey pi).1 = .error e →
        (replace ops matchedKey pi).2.replacements = pi.replacements)
    ∧ ((replace ops matchedKey pi).1 = .ok () →
        ∃ options argList pi1 pi2,
          ops.parseMacroOptions { pi with curr := pi.curr + matchedKey.utf8ByteSize }
            = (.ok options, pi1)
          ∧ ops.parseBracketArgs pi1 = (.ok argList, pi2)
          ∧ (replace ops matchedKey pi).2.replacements
              = pi.replacements ++ [⟨pi.curr, (replace ops matchedKey pi).2.curr,
                  replacementText options argList⟩]
          ∧ (ops.Throws → (replace ops matchedKey pi).2.curr = pi2.curr)) := by
  have hl0 := (hk { pi with curr := pi.curr + matchedKey.utf8ByteSize }).1
  have hl1 := (hk (ops.parseMacroOptions
    { pi with curr := pi.curr + matchedKey.utf8ByteSize }).2).2.1
  rcases replace_parsed ops matchedKey pi with
    ⟨e, p, hrep, hp⟩ | ⟨options, argList, pi1, pi2, h1, h2, hrep⟩
  · rw [hrep]
    refine ⟨fun _ _ => ?_, fun h => by cases h⟩
    rcases hp with hp | hp
    · rw [hp]
      exact hl0
    · rw [hp]
      exact hl1.trans hl0
  · rw [h1] at hl0 hl1
    rw [h2] at hl1
    have hlog : pi2.replacements = pi.replacements := hl1.trans hl0
    obtain ⟨p, hp, hres⟩ := validateAndAppend_log ops hk pi.curr options argList pi2
    rw [hrep]
    rcases hres with ⟨e, hres⟩ | hres
    · rw [hres]
      exact ⟨fun _ _ => hp.trans hlog, fun h => by cases h⟩
    · refine ⟨fun e h => ?_, fun hok => ⟨options, argList, pi1, pi2, h1, h2, ?_, ?_⟩⟩
      · rw [hres] at h
        cases h
      · rw [hres]
        show p.replacements ++ _ = _
        rw [hp.trans hlog]
      · intro hthrow
        obtain ⟨hopts, hflags, hargs⟩ :=
          validateAndAppend_ok_valid ops hthrow pi.curr options argList pi2 hok
        rw [validateAndAppend_of_valid ops pi.curr options argList pi2 hopts hflags hargs]

/-- C6, at `\summ{i}{1}{n}` with one entry already in the log: the call appends
one entry after it; and at `\summ{a}{b}{c}{d}` the failing call appends none. -/
theorem replace_appends_at_most_one_witness :
    ((∀ e, (replace (bufferOps "ab\\summ\x7bi\x7d\x7b1\x7d\x7bn\x7d".data) "\\summ"
          (parserAt "a.stex" 16 2 [⟨0, 1, "x"⟩])).1 = .error e →
        (replace (bufferOps "ab\\summ\x7bi\x7d\x7b1\x7d\x7bn\x7d".data) "\\summ"
          (parserAt "a.stex" 16 2 [⟨0, 1, "x"⟩])).2.replacements
          = (parserAt "a.stex" 16 2 [⟨0, 1, "x"⟩]).replacements)
      ∧ ((replace (bufferOps "ab\\summ\x7bi\x7d\x7b1\x7d\x7bn\x7d".data) "\\summ"
          (parserAt "a.stex" 16 2 [⟨0, 1, "x"⟩])).1 = .ok () →
        ∃ options argList pi1 pi2,
          (bufferOps "ab\\summ\x7bi\x7d\x7b1\x7d\x7bn\x7d".data).parseMacroOptions
              { parserAt "a.stex" 16 2 [⟨0, 1, "x"⟩] with
                curr := (parserAt "a.stex" 16 2 [⟨0, 1, "x"⟩]).curr + "\\summ".utf8ByteSize }
            = (.ok options, pi1)
          ∧ (bufferOps "ab\\summ\x7bi\x7d\x7b1\x7d\x7bn\x7d".data).parseBracketArgs pi1 = (.ok argList, pi2)
          ∧ (replace (bufferOps "ab\\summ\x7bi\x7d\x7b1\x7d\x7bn\x7d".data) "\\summ"
              (parserAt "a.stex" 16 2 [⟨0, 1, "x"⟩])).2.replacements
              = (parserAt "a.stex" 16 2 [⟨0, 1, "x"⟩]).replacements
                ++ [⟨(parserAt "a.stex" 16 2 [⟨0, 1, "x"⟩]).curr,
                    (replace (bufferOps "ab\\summ\x7bi\x7d\x7b1\x7d\x7bn\x7d".data) "\\summ"
                      (parserAt "a.stex" 16 2 [⟨0, 1, "x"⟩])).2.curr,
                    replacementText options argList⟩]
          ∧ ((bufferOps "ab\\summ\x7bi\x7d\x7b1\x7d\x7bn\x7d".data).Throws →
              (replace (bufferOps "ab\\summ\x7bi\x7d\x7b1\x7d\x7bn\x7d".data) "\\summ"
                (parserAt "a.stex" 16 2 [⟨0, 1, "x"⟩])).2.curr = pi2.curr)))
    ∧ replace (bufferOps "ab\\summ\x7bi\x7d\x7b1\x7d\x7bn\x7d".data) "\\summ" (parserAt "a.stex" 16 2 [⟨0, 1, "x"⟩])
        = (.ok (), parserAt "a.stex" 16 16 [⟨0, 1, "x"⟩, ⟨2, 16, "\\sum_\x7bi=1\x7d^\x7bn\x7d"⟩])
    ∧ replace (bufferOps "ab\\summ\x7ba\x7d\x7bb\x7d\x7bc\x7d\x7bd\x7d".data) "\\summ"
          (parserAt "a.stex" 19 2 [⟨0, 1, "x"⟩])
        = (.error (.InvalidInputException "a.stex:1: Too many arguments for \\summation"
            "errorOnLine"), parserAt "a.stex" 19 19 [⟨0, 1, "x"⟩]) :=
  ⟨replace_appends_at_most_one (bufferOps "ab\\summ\x7bi\x7d\x7b1\x7d\x7bn\x7d".data) "\\summ"
      (parserAt "a.stex" 16 2 [⟨0, 1, "x"⟩]) (bufferOps_keepsLog _),
    rfl, rfl⟩

/-! ## Lemmas on `main.cpp` -/

theorem emplaceThreads_length (n : Nat) (threads : List ProcessorThread) :
    (emplaceThreads n threads).length = threads.length + n := by
  induction n generalizing threads with
  | zero => rfl
  | succ k ih =>
    simp only [emplaceThreads, ih, List.length_append, List.length_singleton]
    omega

theorem queueCallback_of_started (hc : Nat) (w : World) (h : w.threadsStarted = true) :
    queueCallback hc w = w := by
  simp [queueCallback, h]

theorem queueCallback_started (hc : Nat) (w : World) :
    (queueCallback hc w).threadsStarted = true := by
  unfold queueCallback
  by_cases h : w.threadsStarted = true
  · simp [h]
  · simp [h]

theorem queueCallback_fold_of_started (hcs : List Nat) (w : World)
    (h : w.threadsStarted = true) :
    hcs.foldl (fun v hc => queueCallback hc v) w = w := by
  induction hcs with
  | nil => rfl
  | cons hc rest ih => simp only [List.foldl_cons, queueCallback_of_started hc w h, ih]

theorem systemCalls_emit (w : World) (e : Effect) :
    systemCalls (w.emit e).out
      = systemCalls w.out ++ (match e with | .system command => [command] | _ => []) := by
  cases e <;> simp [systemCalls, World.emit, List.filterMap_append]

theorem removedPaths_emit (w : World) (e : Effect) :
    removedPaths (w.emit e).out
      = removedPaths w.out ++ (match e with | .remove path => [path] | _ => []) := by
  cases e <;> simp [removedPaths, World.emit, List.filterMap_append]

theorem removeGenerated_spec (files : List String) (w : World) :
    systemCalls (removeGenerated files w).out = systemCalls w.out
    ∧ removedPaths (removeGenerated files w).out = removedPaths w.out ++ files
    ∧ (removeGenerated files w).ctxt = w.ctxt
    ∧ (removeGenerated files w).threadsStarted = w.threadsStarted
    ∧ (removeGenerated files w).auxThreads = w.auxThreads := by
  induction files generalizing w with
  | nil => simp [removeGenerated]
  | cons f rest ih =>
    unfold removeGenerated
    cases hv : w.ctxt.verbose
    · simp only [Bool.false_eq_true, if_false]
      obtain ⟨h1, h2, h3, h4, h5⟩ := ih (w.emit (.remove f))
      refine ⟨h1.trans ?_, h2.trans ?_, h3.trans rfl, h4.trans rfl, h5.trans rfl⟩
      · simp [systemCalls_emit]
      · simp [removedPaths_emit]
    · simp only [if_true]
      obtain ⟨h1, h2, h3, h4, h5⟩ := ih
        ((w.emit (.printf ("Removing intermediate LaTeX file " ++ f ++ "\n"))).emit (.remove f))
      refine ⟨h1.trans ?_, h2.trans ?_, h3.trans rfl, h4.trans rfl, h5.trans rfl⟩
      · simp [systemCalls_emit]
      · simp [removedPaths_emit]

theorem waitIteration_done (w : World) : (waitIteration w).1 = true ↔ WorkDone w := by
  simp [waitIteration, WorkDone, World.setDequeueEnabled, List.all_eq_true, List.isEmpty_iff]

/-! ## The claims on `main.cpp` -/

/-- C7: from a state with `threadsStarted` false and no worker, after any
sequence of one or more invocations of `queueCallback` the pool holds exactly
max(2, hardware concurrency hint) workers and `threadsStarted` is true; the first
invocation creates all of them and the later ones change nothing. The hint of
every invocation is free; only the first is read. -/
theorem queueCallback_starts_once (w : World) (hc : Nat) (later : List Nat)
    (h0 : w.threadsStarted = false) (h1 : w.auxThreads = []) :
    ((hc :: later).foldl (fun v c => queueCallback c v) w).auxThreads.length = max 2 hc
    ∧ ((hc :: later).foldl (fun v c => queueCallback c v) w).threadsStarted = true
    ∧ (queueCallback hc w).auxThreads.length = max 2 hc
    ∧ (hc :: later).foldl (fun v c => queueCallback c v) w = queueCallback hc w
    ∧ ∀ c, queueCallback c (queueCallback hc w) = queueCallback hc w := by
  have hlen : (queueCallback hc w).auxThreads.length = max 2 hc := by
    unfold queueCallback
    simp only [h0, Bool.false_eq_true, if_false]
    split_ifs <;> simp [emplaceThreads_length, World.emit, h1]
  have hfold : (hc :: later).foldl (fun v c => queueCallback c v) w = queueCallback hc w := by
    rw [List.foldl_cons]
    exact queueCallback_fold_of_started later _ (queueCallback_started hc w)
  refine ⟨?_, ?_, hlen, hfold, fun c => ?_⟩
  · rw [hfold, hlen]
  · rw [hfold]
    exact queueCallback_started hc w
  · exact queueCallback_of_started c _ (queueCallback_started hc w)

/-- C7, at the initial state with hints 1, 8 and 3 for three invocations: the
pool holds two workers. -/
theorem queueCallback_starts_once_witness :
    (([1, 8, 3].foldl (fun v c => queueCallback c v)
        (World.initial ⟨true, false, [], ⟨[], true⟩⟩)).auxThreads.length = max 2 1
      ∧ ([1, 8, 3].foldl (fun v c => queueCallback c v)
        (World.initial ⟨true, false, [], ⟨[], true⟩⟩)).threadsStarted = true
      ∧ (queueCallback 1 (World.initial ⟨true, false, [], ⟨[], true⟩⟩)).auxThreads.length
          = max 2 1
      ∧ [1, 8, 3].foldl (fun v c => queueCallback c v)
          (World.initial ⟨true, false, [], ⟨[], true⟩⟩)
          = queueCallback 1 (World.initial ⟨true, false, [], ⟨[], true⟩⟩)
      ∧ ∀ c, queueCallback c (queueCallback 1 (World.initial ⟨true, false, [], ⟨[], true⟩⟩))
          = queueCallback 1 (World.initial ⟨true, false, [], ⟨[], true⟩⟩))
    ∧ ([1, 8, 3].foldl (fun v c => queueCallback c v)
        (World.initial ⟨false, false, [], ⟨[], true⟩⟩)).auxThreads
        = [ProcessorThread.new, ProcessorThread.new] :=
  ⟨queueCallback_starts_once (World.initial ⟨true, false, [], ⟨[], true⟩⟩) 1 [8, 3] rfl rfl,
    by decide⟩

/-- C8: one pass of the waiting loop of `main` reports `done` if and only if,
at the check made with the gate closed, no worker is busy and the queue is empty
or the error flag is set; the loop then ends with the gate open again, and the
started pool is signalled to stop; otherwise the orchestrator sleeps and the
loop runs again. -/
theorem waitLoop_leaves_iff (pf : Platform) (fuel : Nat) (w : World) :
    ((waitIteration w).1 = true ↔ WorkDone w)
    ∧ (waitIteration w).2 = w.setDequeueEnabled true
    ∧ waitLoop pf (fuel + 1) w
        = (if WorkDone w then some (w.setDequeueEnabled true)
           else waitLoop pf fuel (pf.workers ((w.setDequeueEnabled true).emit .sleep)))
    ∧ mainWait pf (fuel + 1) w
        = (if w.threadsStarted then
            (if WorkDone w then some (beginExitAll (w.setDequeueEnabled true))
             else (waitLoop pf fuel (pf.workers ((w.setDequeueEnabled true).emit .sleep))).map
                beginExitAll)
           else some w) := by
  have hdone := waitIteration_done w
  have hstate : (waitIteration w).2 = w.setDequeueEnabled true := rfl
  have hloop : waitLoop pf (fuel + 1) w
      = (if WorkDone w then some (w.setDequeueEnabled true)
         else waitLoop pf fuel (pf.workers ((w.setDequeueEnabled true).emit .sleep))) := by
    have hpair : waitIteration w = ((waitIteration w).1, w.setDequeueEnabled true) := rfl
    by_cases hd : WorkDone w
    · have ht : (waitIteration w).1 = true := hdone.mpr hd
      rw [if_pos hd, waitLoop, hpair, ht]
    · have hf : (waitIteration w).1 = false := by
        cases hb : (waitIteration w).1
        · rfl
        · exact absurd (hdone.mp hb) hd
      rw [if_neg hd, waitLoop, hpair, hf]
  refine ⟨hdone, hstate, hloop, ?_⟩
  by_cases hs : w.threadsStarted = true
  · simp only [mainWait, hs, if_true]
    rw [hloop]
    by_cases hd : WorkDone w
    · simp only [hd, if_true]
    · simp only [hd, if_false]
      cases waitLoop pf fuel (pf.workers ((w.setDequeueEnabled true).emit .sleep)) <;> rfl
  · simp [mainWait, hs]

theorem join_out (w : World) :
    (if w.threadsStarted then
        { w with auxThreads := w.auxThreads.map (fun pt => { pt with joined := true }) }
      else w).out = w.out := by
  split_ifs <;> rfl

theorem mainFinish_calls (pf : Platform) (keepFlag preOnlyFlag : Bool) (fileArg : String)
    (w : World) :
    systemCalls (mainFinish pf keepFlag preOnlyFlag fileArg w).2.out
      = systemCalls w.out ++
          (if w.ctxt.error = false ∧ preOnlyFlag = false then
            ["pdflatex " ++ pf.regexReplace fileArg] else [])
    ∧ removedPaths (mainFinish pf keepFlag preOnlyFlag fileArg w).2.out
      = removedPaths w.out ++
          (if keepFlag = false ∧ preOnlyFlag = false then w.ctxt.generatedFiles else []) := by
  unfold mainFinish
  simp only [join_out]
  cases he : w.ctxt.error <;> cases preOnlyFlag <;> cases keepFlag <;>
    cases hv : w.ctxt.verbose <;>
    simp [he, hv, removeGenerated_spec, systemCalls_emit, removedPaths_emit, World.emit] <;>
    simp [systemCalls, removedPaths, List.filterMap_append]

/-- C9: whatever the error flag and the preprocess-only switch are when the
processing is over, the last part of `main` calls `system` once, with the
typesetting command, if the error flag is unset and preprocess-only is false,
and not at all otherwise; in particular not when the error flag is set. `main`
itself is that last part applied to the state after the waiting loop. -/
theorem typesetting_iff (pf : Platform) (fuel : Nat) (verbFlag keepFlag preOnlyFlag : Bool)
    (fileArg : String) (w0 w : World) :
    systemCalls (mainFinish pf keepFlag preOnlyFlag fileArg w).2.out
      = systemCalls w.out ++
          (if w.ctxt.error = false ∧ preOnlyFlag = false then
            ["pdflatex " ++ pf.regexReplace fileArg] else [])
    ∧ (systemCalls (mainFinish pf keepFlag preOnlyFlag fileArg w).2.out ≠ systemCalls w.out
        ↔ (w.ctxt.error = false ∧ preOnlyFlag = false))
    ∧ main pf fuel verbFlag keepFlag preOnlyFlag fileArg w0
      = (mainWait pf fuel (mainProcess pf verbFlag fileArg w0)).map
          (mainFinish pf keepFlag preOnlyFlag fileArg) := by
  have h := (mainFinish_calls pf keepFlag preOnlyFlag fileArg w).1
  refine ⟨h, ?_, ?_⟩
  · rw [h]
    by_cases hc : w.ctxt.error = false ∧ preOnlyFlag = false
    · simp [hc]
    · simp [hc]
  · unfold main
    cases mainWait pf fuel (mainProcess pf verbFlag fileArg w0) <;> rfl

/-- C10 as stated fails: in a final state with the error flag set and the
registry holding `a.tex`, with keep-intermediate and preprocess-only both unset,
`main` removes `a.tex`. -/
theorem cleanup_counterexample :
    (⟨false, [], ⟨false, true, ["a.tex"], ⟨[], true⟩⟩, []⟩ : World).ctxt.error = true
    ∧ removedPaths (mainFinish Platform.rootOnly false false "a.stex"
        ⟨false, [], ⟨false, true, ["a.tex"], ⟨[], true⟩⟩, []⟩).2.out = ["a.tex"] := by
  decide

/-- C10, amended: in every final state, with the error flag set or not, `main`
removes no path of the registry of generated files when keep-intermediate or
preprocess-only is set, and calls `remove` on every path of the registry, in
order, when neither is set. -/
theorem cleanup_paths (pf : Platform) (keepFlag preOnlyFlag : Bool) (fileArg : String)
    (w : World) :
    removedPaths (mainFinish pf keepFlag preOnlyFlag fileArg w).2.out
      = removedPaths w.out ++
          (if keepFlag = false ∧ preOnlyFlag = false then w.ctxt.generatedFiles else []) :=
  (mainFinish_calls pf keepFlag preOnlyFlag fileArg w).2

end SemTeX
